import Mathlib

/-
Shallow embedding of the sw-synth voice manager (source: src/index.ts, the
only implementation file).  Times, frequencies, velocities and gain values
are modelled as rationals; JS numbers that may be NaN or infinite (the
`setPolyphony` argument) are modelled by the `JSNum` type.  Web Audio
automation calls (`setValueAtTime`, `linearRampToValueAtTime`,
`setTargetAtTime`, `cancelScheduledValues`) are recorded as events appended
to per-voice timelines, in call order.
-/

/-- Exponential approach conversion constant `TIME_CONSTANT = 0.5` from the source. -/
def TIME_CONSTANT : ℚ := 1 / 2

/-- Sentinel age `EXPIRED = 10000` marking voices that are off. -/
def EXPIRED : ℤ := 10000

/-- ADSR parameters (`VoiceBaseParams` in the source). -/
structure VoiceBaseParams where
  audioDelay : ℚ
  attackTime : ℚ
  decayTime : ℚ
  sustainLevel : ℚ
  releaseTime : ℚ
deriving DecidableEq

/-- Oscillator type strings of the Web Audio API (`OscillatorType`). -/
inductive OscType where
  | sine
  | sawtooth
  | triangle
  | square
  | custom
deriving DecidableEq

/-- Opaque periodic-wave payload; only its identity matters to the core. -/
structure PeriodicWave where
  waveId : ℕ
deriving DecidableEq

/-- `VoiceParams`: timbre plus ADSR. `periodicWave` is optional. -/
structure VoiceParams extends VoiceBaseParams where
  type : OscType
  periodicWave : Option PeriodicWave
deriving DecidableEq

/-- `UnisonVoiceParams`: timbre, ADSR and voice stack. -/
structure UnisonVoiceParams extends VoiceParams where
  stackSize : ℚ
  spread : ℚ
deriving DecidableEq

/-- One scheduled automation call on an `AudioParam` timeline. -/
inductive GainEvent where
  | setValueAtTime (value : ℚ) (time : ℚ)
  | linearRampToValueAtTime (value : ℚ) (time : ℚ)
  | setTargetAtTime (target : ℚ) (time : ℚ) (timeConstant : ℚ)
  | cancelScheduledValues (time : ℚ)
deriving DecidableEq

/-- The data captured by value by the `noteOff` closure returned from
`VoiceBase.noteOn`: the note id, the scheduled attack start
`t0 = currentTime + audioDelay` (called `now` in the source), and the
attack time, velocity and release time of the trigger. -/
structure NoteOffClosure where
  noteId : ℤ
  t0 : ℚ
  attackTime : ℚ
  velocity : ℚ
  releaseTime : ℚ
deriving DecidableEq

/-- Mutable per-voice state (fields of `VoiceBase` and of its oscillator).
`spreadEvents` is the automation timeline of the unison spread parameter,
`freqEvents` of the oscillator frequency, `gainEvents` of the envelope gain. -/
structure VoiceState where
  age : ℤ
  noteId : ℤ
  voiceId : ℕ
  oscType : OscType
  oscWave : Option PeriodicWave
  numberOfVoices : ℚ
  spreadEvents : List GainEvent
  freqEvents : List GainEvent
  gainEvents : List GainEvent
  lastNoteOff : Option NoteOffClosure
deriving DecidableEq

/-- A voice as constructed by the `VoiceBase` constructor: `age = EXPIRED`,
`noteId = 0`, fresh oscillator, empty timelines, no note-off callback. -/
def freshVoice (vid : ℕ) : VoiceState where
  age := EXPIRED
  noteId := 0
  voiceId := vid
  oscType := OscType.sine
  oscWave := none
  numberOfVoices := 0
  spreadEvents := []
  freqEvents := []
  gainEvents := []
  lastNoteOff := none

/-- `VoiceBase.noteOn`: stamps the voice with the new note id, resets its age,
schedules frequency and the attack/decay gain curve starting at
`now = currentTime + audioDelay`, and returns the `noteOff` closure data. -/
def VoiceBase.noteOn (v : VoiceState) (currentTime frequency velocity : ℚ)
    (noteId : ℤ) (p : VoiceBaseParams) : VoiceState × NoteOffClosure :=
  let now := currentTime + p.audioDelay
  let c : NoteOffClosure :=
    { noteId := noteId, t0 := now, attackTime := p.attackTime,
      velocity := velocity, releaseTime := p.releaseTime }
  ({ v with
      age := 0
      noteId := noteId
      freqEvents := v.freqEvents ++ [GainEvent.setValueAtTime frequency now]
      gainEvents := v.gainEvents ++
        [GainEvent.setValueAtTime 0 now,
         GainEvent.linearRampToValueAtTime velocity (now + p.attackTime),
         GainEvent.setTargetAtTime (velocity * p.sustainLevel)
           (now + p.attackTime) (p.decayTime * TIME_CONSTANT)]
      lastNoteOff := some c }, c)

/-- Invocation of a `noteOff` closure `c` at current time `t1` on voice `v`
(the body of the closure constructed inside `VoiceBase.noteOn`): a no-op
unless `v.noteId` equals the captured id; otherwise set `age = EXPIRED`,
cancel scheduled values at `t1`, set the linearly interpolated hold value
when `t1` falls inside the attack ramp, schedule the exponential release,
and mark the voice released with `noteId = -1`. -/
def invokeNoteOff (c : NoteOffClosure) (t1 : ℚ) (v : VoiceState) : VoiceState :=
  if v.noteId ≠ c.noteId then v
  else
    { v with
        age := EXPIRED
        noteId := -1
        gainEvents := v.gainEvents ++
          [GainEvent.cancelScheduledValues t1] ++
          (if t1 < c.t0 + c.attackTime then
            [GainEvent.setValueAtTime (c.velocity * (t1 - c.t0) / c.attackTime) t1]
          else []) ++
          [GainEvent.setTargetAtTime 0 t1 (c.releaseTime * TIME_CONSTANT)] }

/-- Error kinds thrown by the source (`throw new Error(...)` sites). -/
inductive SynthError where
  | MissingVoiceParams
  | InvalidWaveformConfiguration
  | InvalidPolyphony
deriving DecidableEq

/-- Whether a waveform configuration is rejected by `Voice.noteOn` and
`UnisonVoice.noteOn`: a periodic wave without type `custom`, or type
`custom` without a periodic wave. -/
def waveformConfigInvalid (p : VoiceParams) : Bool :=
  match p.periodicWave with
  | some _ => decide (p.type ≠ OscType.custom)
  | none => decide (p.type = OscType.custom)

/-- `Voice.noteOn`: validates the waveform configuration, applies it to the
oscillator, then delegates to `VoiceBase.noteOn`.  The validation happens
before any other effect, so on error the voice state is returned unchanged. -/
def Voice.noteOn (v : VoiceState) (currentTime frequency velocity : ℚ)
    (noteId : ℤ) (p : VoiceParams) :
    VoiceState × Except SynthError NoteOffClosure :=
  match p.periodicWave with
  | some w =>
    if p.type ≠ OscType.custom then
      (v, Except.error SynthError.InvalidWaveformConfiguration)
    else
      let r := VoiceBase.noteOn { v with oscWave := some w }
        currentTime frequency velocity noteId p.toVoiceBaseParams
      (r.1, Except.ok r.2)
  | none =>
    if p.type = OscType.custom then
      (v, Except.error SynthError.InvalidWaveformConfiguration)
    else
      let r := VoiceBase.noteOn { v with oscType := p.type }
        currentTime frequency velocity noteId p.toVoiceBaseParams
      (r.1, Except.ok r.2)

/-- `UnisonVoice.noteOn`: sets the oscillator stack size and schedules the
spread automation point at `currentTime + audioDelay` BEFORE validating the
waveform configuration (this is the statement order of the source), then
proceeds like `Voice.noteOn`. -/
def UnisonVoice.noteOn (v : VoiceState) (currentTime frequency velocity : ℚ)
    (noteId : ℤ) (p : UnisonVoiceParams) :
    VoiceState × Except SynthError NoteOffClosure :=
  let v0 := { v with numberOfVoices := p.stackSize }
  let now := currentTime + p.audioDelay
  let v1 := { v0 with
    spreadEvents := v0.spreadEvents ++ [GainEvent.setValueAtTime p.spread now] }
  match p.periodicWave with
  | some w =>
    if p.type ≠ OscType.custom then
      (v1, Except.error SynthError.InvalidWaveformConfiguration)
    else
      let r := VoiceBase.noteOn { v1 with oscWave := some w }
        currentTime frequency velocity noteId p.toVoiceBaseParams
      (r.1, Except.ok r.2)
  | none =>
    if p.type = OscType.custom then
      (v1, Except.error SynthError.InvalidWaveformConfiguration)
    else
      let r := VoiceBase.noteOn { v1 with oscType := p.type }
        currentTime frequency velocity noteId p.toVoiceBaseParams
      (r.1, Except.ok r.2)

/-- The voice-selection scan of `Synth.noteOn`, over the (already aged) list
of voice ages: starting from the first voice as the current candidate, a
later voice replaces the candidate exactly when its age is strictly
greater (`voice.age > oldestVoice.age`). `i` is the index of the next
element, `best` the candidate (index, age) so far. -/
def pickOldestAux : ℕ → ℕ × ℤ → List ℤ → ℕ × ℤ
  | _, best, [] => best
  | i, best, a :: rest =>
      pickOldestAux (i + 1) (if best.2 < a then (i, a) else best) rest

/-- Result of the selection loop of `Synth.noteOn` on a list of ages:
`none` when the pool is empty (`oldestVoice === undefined`). -/
def pickOldest : List ℤ → Option (ℕ × ℤ)
  | [] => none
  | a :: rest => some (pickOldestAux 1 (0, a) rest)

/-- The `voice.age++` performed on every voice by the allocation loop. -/
def bumpAge (v : VoiceState) : VoiceState := { v with age := v.age + 1 }

/-- Mutable state of a `Synth`: the optional shared voice parameters, the
voice pool in order, and the process-wide `NOTE_ID` / `VOICE_ID` counters. -/
structure SynthState where
  voiceParams : Option VoiceBaseParams
  voices : List VoiceState
  nextNoteId : ℤ
  nextVoiceId : ℕ
deriving DecidableEq

/-- Result of a `Synth.noteOn` call: the no-op callback returned for an
empty pool, a thrown error, or the `noteOff` closure of the triggered voice. -/
inductive NoteOnResult where
  | noop
  | thrown (e : SynthError)
  | off (c : NoteOffClosure)
deriving DecidableEq

/-- `Synth.noteOn`: one pass over the pool increments every age and tracks
the voice with the strictly greatest age; an empty pool returns a no-op
callback; a missing `voiceParams` throws AFTER the aging pass (this is the
statement order of the source); otherwise the selected voice is triggered
with the next note id.  The returned state is the synth state after the
call, including mutations that precede a throw. -/
def Synth.noteOn (s : SynthState) (currentTime frequency velocity : ℚ) :
    SynthState × NoteOnResult :=
  let aged := s.voices.map bumpAge
  match pickOldest (aged.map (fun v => v.age)) with
  | none => ({ s with voices := aged }, NoteOnResult.noop)
  | some iv =>
    match s.voiceParams with
    | none =>
      ({ s with voices := aged }, NoteOnResult.thrown SynthError.MissingVoiceParams)
    | some p =>
      let r := VoiceBase.noteOn (aged.getD iv.1 (freshVoice 0))
        currentTime frequency velocity s.nextNoteId p
      ({ s with voices := aged.set iv.1 r.1, nextNoteId := s.nextNoteId + 1 },
       NoteOnResult.off r.2)

/-- The body of the `allNotesOff` loop for one voice: invoke the most
recent `noteOff` closure at time `t` if the voice has one. -/
def voiceAllOff (t : ℚ) (v : VoiceState) : VoiceState :=
  match v.lastNoteOff with
  | none => v
  | some c => invokeNoteOff c t v

/-- `Synth.allNotesOff` at current time `t`: invokes the most recent
`noteOff` closure of every voice that has one. -/
def Synth.allNotesOff (s : SynthState) (t : ℚ) : SynthState :=
  { s with voices := s.voices.map (voiceAllOff t) }

/-- A JavaScript `number` as far as `setPolyphony` inspects it. -/
inductive JSNum where
  | nan
  | posInf
  | negInf
  | fin (q : ℚ)
deriving DecidableEq

/-- JS comparison `x < 0` (false for NaN, true for `-Infinity`). -/
def JSNum.ltZero : JSNum → Bool
  | JSNum.nan => false
  | JSNum.posInf => false
  | JSNum.negInf => true
  | JSNum.fin q => decide (q < 0)

/-- The guard of `setPolyphony`:
`maxPolyphony < 0 || maxPolyphony === Infinity || isNaN(maxPolyphony)`. -/
def invalidPolyphony (m : JSNum) : Bool :=
  m.ltZero || decide (m = JSNum.posInf) || decide (m = JSNum.nan)

/-- The shrink loop `while (voices.length > maxPolyphony) voices.pop().dispose()`,
written with explicit fuel (one unit per iteration; `fuel = voices.length`
always suffices since every iteration removes one voice).  Returns the kept
voices and the disposed voices in disposal order (last pool index first). -/
def popLoopF : ℕ → List VoiceState → ℚ → List VoiceState × List VoiceState
  | 0, vs, _ => (vs, [])
  | fuel + 1, vs, q =>
    if q < (vs.length : ℚ) then
      match vs.getLast? with
      | none => (vs, [])
      | some d =>
        let r := popLoopF fuel vs.dropLast q
        (r.1, d :: r.2)
    else (vs, [])

/-- The grow loop `while (voices.length < maxPolyphony) voices.push(_newVoice())`,
with explicit fuel (`fuel = ⌈q⌉₊` always suffices for `q ≥ 0`).  Threads the
`VOICE_ID` counter used by the `VoiceBase` constructor. -/
def pushLoopF : ℕ → List VoiceState → ℚ → ℕ → List VoiceState × ℕ
  | 0, vs, _, vid => (vs, vid)
  | fuel + 1, vs, q, vid =>
    if (vs.length : ℚ) < q then
      pushLoopF fuel (vs ++ [freshVoice vid]) q (vid + 1)
    else (vs, vid)

/-- `Synth.setPolyphony`: throws `InvalidPolyphony` (leaving the state
unchanged) when the argument is negative, `Infinity` or NaN; otherwise
shrinks by popping and disposing trailing voices, then grows by appending
freshly constructed voices.  Returns the new state and, on success, the
disposed voices in disposal order. -/
def Synth.setPolyphony (s : SynthState) (m : JSNum) :
    SynthState × Except SynthError (List VoiceState) :=
  if invalidPolyphony m then
    (s, Except.error SynthError.InvalidPolyphony)
  else
    match m with
    | JSNum.fin q =>
      let shrunk := popLoopF s.voices.length s.voices q
      let grown := pushLoopF (Nat.ceil q) shrunk.1 q s.nextVoiceId
      ({ s with voices := grown.1, nextVoiceId := grown.2 }, Except.ok shrunk.2)
    | _ => (s, Except.error SynthError.InvalidPolyphony)

/-- A freshly created pool of `n` voices with parameters configured:
the state reached by `setPolyphony(n)` on a new `Synth` after assigning
`voiceParams`. -/
def freshSynth (n : ℕ) (p : VoiceBaseParams) : SynthState where
  voiceParams := some p
  voices := (List.range n).map (fun i => freshVoice (i + 1))
  nextNoteId := 1
  nextVoiceId := n + 1

/-- `k` consecutive `Synth.noteOn` calls starting from `s`; `inputs j` gives
the current time, frequency and velocity of the `j`-th call (0-based). -/
def iterNoteOn (s : SynthState) (inputs : ℕ → ℚ × ℚ × ℚ) : ℕ → SynthState
  | 0 => s
  | k + 1 =>
    let s' := iterNoteOn s inputs k
    (Synth.noteOn s' (inputs k).1 (inputs k).2.1 (inputs k).2.2).1

/-- Index of the voice that a `Synth.noteOn` call on state `s` would select
(trigger), if any: the result of the selection scan over the aged ages. -/
def selectedIndex (s : SynthState) : Option ℕ :=
  (pickOldest ((s.voices.map bumpAge).map (fun v => v.age))).map (fun iv => iv.1)

/-
Concrete parameter values shared by several witnesses below.
`paramsA`: no audio delay, attack time 1.  `paramsB`: audio delay 1.
-/

def paramsA : VoiceBaseParams :=
  { audioDelay := 0, attackTime := 1, decayTime := 3/10,
    sustainLevel := 4/5, releaseTime := 1/100 }

def paramsB : VoiceBaseParams :=
  { audioDelay := 1, attackTime := 1, decayTime := 3/10,
    sustainLevel := 4/5, releaseTime := 1/100 }

/-- C1: invoking the `noteOff` closure returned by `VoiceBase.noteOn`
(which still owns the voice) at time `t1` appends, in order: a cancel at
`t1`; when `t1 < t0 + attackTime` (with `t0 = currentTime + audioDelay`
the scheduled attack start) an explicit gain value
`velocity * (t1 - t0) / attackTime` at `t1`; and the exponential release
toward 0 with time constant `releaseTime * 0.5`.  When
`t1 ≥ t0 + attackTime` no correction value is set.  Moreover, strictly
inside the attack window with positive velocity, the correction value is
strictly between 0 and `velocity`, so it is neither 0 nor `velocity`. -/
theorem noteOff_release_schedule (v : VoiceState) (t f vel : ℚ) (id : ℤ)
    (p : VoiceBaseParams) (t1 : ℚ) :
    invokeNoteOff (VoiceBase.noteOn v t f vel id p).2 t1
        (VoiceBase.noteOn v t f vel id p).1 =
      { (VoiceBase.noteOn v t f vel id p).1 with
          age := EXPIRED
          noteId := -1
          gainEvents := (VoiceBase.noteOn v t f vel id p).1.gainEvents ++
            [GainEvent.cancelScheduledValues t1] ++
            (if t1 < (t + p.audioDelay) + p.attackTime then
              [GainEvent.setValueAtTime
                (vel * (t1 - (t + p.audioDelay)) / p.attackTime) t1]
            else []) ++
            [GainEvent.setTargetAtTime 0 t1 (p.releaseTime * TIME_CONSTANT)] } ∧
    (t + p.audioDelay < t1 → t1 < (t + p.audioDelay) + p.attackTime → 0 < vel →
      0 < vel * (t1 - (t + p.audioDelay)) / p.attackTime ∧
      vel * (t1 - (t + p.audioDelay)) / p.attackTime < vel) := by
  refine ⟨by simp [VoiceBase.noteOn, invokeNoteOff], ?_⟩
  intro h0 h1 hv
  have hd : 0 < t1 - (t + p.audioDelay) := by linarith
  have hdA : t1 - (t + p.audioDelay) < p.attackTime := by linarith
  have hA : 0 < p.attackTime := by linarith
  constructor
  · positivity
  · rw [div_lt_iff₀ hA]
    nlinarith

/-- Witness for C1 at the spec scenario shape: trigger at 0 with no delay,
attack time 1, release at `t1 = 1/2` (mid-attack): the correction value
`1 * (1/2 - 0) / 1` is strictly between 0 and the velocity 1. -/
theorem noteOff_release_schedule_witness :
    (0 + paramsA.audioDelay < (1/2 : ℚ)) ∧
    (0 < (1 : ℚ) * (1/2 - (0 + paramsA.audioDelay)) / paramsA.attackTime ∧
      (1 : ℚ) * (1/2 - (0 + paramsA.audioDelay)) / paramsA.attackTime < 1) :=
  ⟨by norm_num [paramsA],
   (noteOff_release_schedule (freshVoice 0) 0 440 1 1 paramsA (1/2)).2
     (by norm_num [paramsA]) (by norm_num [paramsA]) (by norm_num)⟩

/-- C5: invoking a `noteOff` closure whose captured note id differs from the
voice's current note id is a no-op: the voice state (age, noteId, all
automation timelines, stored callback) is returned entirely unchanged. -/
theorem staleNoteOff_noop (c : NoteOffClosure) (t1 : ℚ) (v : VoiceState)
    (h : v.noteId ≠ c.noteId) : invokeNoteOff c t1 v = v := by
  simp [invokeNoteOff, h]

/-- Witness for C5: a freshly constructed voice (note id 0) ignores a
closure that captured note id 5. -/
theorem staleNoteOff_noop_witness :
    (freshVoice 0).noteId ≠ (5 : ℤ) ∧
    invokeNoteOff { noteId := 5, t0 := 0, attackTime := 1, velocity := 1, releaseTime := 1 }
      2 (freshVoice 0) = freshVoice 0 :=
  ⟨by decide,
   staleNoteOff_noop
     { noteId := 5, t0 := 0, attackTime := 1, velocity := 1, releaseTime := 1 }
     2 (freshVoice 0) (by decide)⟩

/-- C10: if the owning `noteOff` closure is invoked at `t1` strictly before
the scheduled attack start `t0 = currentTime + audioDelay` (possible when
`audioDelay > 0`), the mid-attack branch is taken and the explicitly set
gain value `velocity * (t1 - t0) / attackTime` is strictly negative for
positive velocity and attack time: the amplitude is set below zero, not
clamped to 0. -/
theorem noteOff_beforeDelayedAttack_negative (v : VoiceState) (t f vel : ℚ)
    (id : ℤ) (p : VoiceBaseParams) (t1 : ℚ)
    (h1 : t1 < t + p.audioDelay) (hA : 0 < p.attackTime) (hv : 0 < vel) :
    invokeNoteOff (VoiceBase.noteOn v t f vel id p).2 t1
        (VoiceBase.noteOn v t f vel id p).1 =
      { (VoiceBase.noteOn v t f vel id p).1 with
          age := EXPIRED
          noteId := -1
          gainEvents := (VoiceBase.noteOn v t f vel id p).1.gainEvents ++
            [GainEvent.cancelScheduledValues t1,
             GainEvent.setValueAtTime
               (vel * (t1 - (t + p.audioDelay)) / p.attackTime) t1,
             GainEvent.setTargetAtTime 0 t1 (p.releaseTime * TIME_CONSTANT)] } ∧
    vel * (t1 - (t + p.audioDelay)) / p.attackTime < 0 := by
  have hbranch : t1 < (t + p.audioDelay) + p.attackTime := by linarith
  constructor
  · simp [VoiceBase.noteOn, invokeNoteOff, hbranch]
  · have hneg : vel * (t1 - (t + p.audioDelay)) < 0 :=
      mul_neg_of_pos_of_neg hv (by linarith)
    exact div_neg_of_neg_of_pos hneg hA

/-- Witness for C10: audio delay 1, trigger at time 0, release at `1/2`
(before the attack even starts): the scheduled hold value is `-1/2 < 0`. -/
theorem noteOff_beforeDelayedAttack_negative_witness :
    ((1/2 : ℚ) < 0 + paramsB.audioDelay) ∧
    (1 : ℚ) * (1/2 - (0 + paramsB.audioDelay)) / paramsB.attackTime < 0 :=
  ⟨by norm_num [paramsB],
   (noteOff_beforeDelayedAttack_negative (freshVoice 0) 0 440 1 1 paramsB (1/2)
     (by norm_num [paramsB]) (by norm_num [paramsB]) (by norm_num)).2⟩

/-- Characterization of the selection loop body: starting the scan at index
`i` with candidate `b`, either the candidate survives (and every remaining
age is at most its age), or the scan returns position `i + j` of the first
remaining age that is the strict maximum seen. -/
lemma pickOldestAux_spec (l : List ℤ) : ∀ (i : ℕ) (b : ℕ × ℤ),
    (pickOldestAux i b l = b ∧ ∀ y ∈ l, y ≤ b.2) ∨
    (∃ j, j < l.length ∧
      pickOldestAux i b l = (i + j, l.getD j 0) ∧
      b.2 < l.getD j 0 ∧
      (∀ y ∈ l, y ≤ l.getD j 0) ∧
      (∀ k, k < j → l.getD k 0 < l.getD j 0)) := by
  induction l with
  | nil =>
    intro i b
    left
    refine ⟨rfl, ?_⟩
    intro y hy
    simp at hy
  | cons x rest ih =>
    intro i b
    by_cases hbx : b.2 < x
    · have hstep : pickOldestAux i b (x :: rest) = pickOldestAux (i + 1) (i, x) rest := by
        simp [pickOldestAux, hbx]
    
      rcases ih (i + 1) (i, x) with ⟨heq, hle⟩ | ⟨j, hj, heq, hgt, hle, hfirst⟩
      · right
        refine ⟨0, by simp, ?_, ?_, ?_, ?_⟩
        · rw [hstep, heq]; simp
        · simpa using hbx
        · intro y hy
          rw [List.getD_cons_zero]
          rcases List.mem_cons.mp hy with h1 | h2
          · exact le_of_eq h1
          · exact hle y h2
        · intro k hk; omega
      · have hgt' : x < rest.getD j 0 := hgt
        have hle' : ∀ y ∈ rest, y ≤ rest.getD j 0 := hle
        right
        refine ⟨j + 1, by simp; omega, ?_, ?_, ?_, ?_⟩
        · rw [hstep, heq]
          have harith : i + 1 + j = i + (j + 1) := by omega
          rw [harith, List.getD_cons_succ]
        · rw [List.getD_cons_succ]; exact lt_trans hbx hgt'
        · intro y hy
          rw [List.getD_cons_succ]
          rcases List.mem_cons.mp hy with h1 | h2
          · exact h1 ▸ le_of_lt hgt'
          · exact hle' y h2
        · intro k hk
          cases k with
          | zero =>
            rw [List.getD_cons_zero, List.getD_cons_succ]
            exact hgt'
          | succ k' =>
            rw [List.getD_cons_succ, List.getD_cons_succ]
            exact hfirst k' (by omega)
    · have hstep : pickOldestAux i b (x :: rest) = pickOldestAux (i + 1) b rest := by
        simp [pickOldestAux, hbx]
      have hxb : x ≤ b.2 := not_lt.mp hbx
      rcases ih (i + 1) b with ⟨heq, hle⟩ | ⟨j, hj, heq, hgt, hle, hfirst⟩
      · left
        refine ⟨by rw [hstep, heq], ?_⟩
        intro y hy
        rcases List.mem_cons.mp hy with h1 | h2
        · exact h1 ▸ hxb
        · exact hle y h2
      · right
        refine ⟨j + 1, by simp; omega, ?_, ?_, ?_, ?_⟩
        · rw [hstep, heq]
          have harith : i + 1 + j = i + (j + 1) := by omega
          rw [harith, List.getD_cons_succ]
        · rw [List.getD_cons_succ]; exact hgt
        · intro y hy
          rw [List.getD_cons_succ]
          rcases List.mem_cons.mp hy with h1 | h2
          · exact h1 ▸ le_trans hxb (le_of_lt hgt)
          · exact hle y h2
        · intro k hk
          cases k with
          | zero =>
            rw [List.getD_cons_zero, List.getD_cons_succ]
            exact lt_of_le_of_lt hxb hgt
          | succ k' =>
            rw [List.getD_cons_succ, List.getD_cons_succ]
            exact hfirst k' (by omega)

/-- The selection loop of `Synth.noteOn` returns a valid index holding the
maximum age, and every strictly earlier index holds a strictly smaller age
(the lower index wins ties because the comparison is strict). -/
lemma pickOldest_spec (ages : List ℤ) (i : ℕ) (a : ℤ)
    (h : pickOldest ages = some (i, a)) :
    i < ages.length ∧ ages.getD i 0 = a ∧
    (∀ j, j < ages.length → ages.getD j 0 ≤ a) ∧
    (∀ j, j < i → ages.getD j 0 < a) := by
  cases ages with
  | nil => simp [pickOldest] at h
  | cons x rest =>
    have h' : pickOldestAux 1 (0, x) rest = (i, a) := by
      simpa [pickOldest] using h
    rcases pickOldestAux_spec rest 1 (0, x) with ⟨heq, hle⟩ | ⟨j, hj, heq, hgt, hle, hfirst⟩
    · rw [heq] at h'
      obtain ⟨hi0, hxa⟩ := Prod.mk.inj h'.symm
      subst hi0
      refine ⟨by simp, by simpa using hxa.symm, ?_, ?_⟩
      · intro k hkl
        cases k with
        | zero => simpa using hxa.symm.le
        | succ k' =>
          have hk' : k' < rest.length := by simpa using hkl
          rw [List.getD_cons_succ, List.getD_eq_getElem rest 0 hk']
          exact le_trans (hle _ (List.getElem_mem hk')) hxa.symm.le
      · intro k hk0; omega
    · rw [heq] at h'
      obtain ⟨hij, hva⟩ := Prod.mk.inj h'
      have hij' : i = 1 + j := hij.symm
      subst hij'
      refine ⟨by simp; omega, ?_, ?_, ?_⟩
      · have harith : 1 + j = j + 1 := by omega
        rw [harith, List.getD_cons_succ]
        exact hva
      · intro k hkl
        cases k with
        | zero =>
          rw [List.getD_cons_zero]
          exact le_trans (le_of_lt hgt) (le_of_eq hva)
        | succ k' =>
          have hk' : k' < rest.length := by simpa using hkl
          rw [List.getD_cons_succ, List.getD_eq_getElem rest 0 hk']
          exact le_trans (hle _ (List.getElem_mem hk')) (le_of_eq hva)
      · intro k hki
        cases k with
        | zero =>
          rw [List.getD_cons_zero]
          exact lt_of_lt_of_le hgt (le_of_eq hva)
        | succ k' =>
          rw [List.getD_cons_succ]
          exact lt_of_lt_of_le (hfirst k' (by omega)) (le_of_eq hva)

/-- Converse of `pickOldest_spec`: the index holding the maximum, all
earlier entries being strictly smaller, is the one the loop returns. -/
lemma pickOldest_eq_of (ages : List ℤ) (i : ℕ) (M : ℤ)
    (hi : i < ages.length) (hMi : ages.getD i 0 = M)
    (hub : ∀ j, j < ages.length → ages.getD j 0 ≤ M)
    (hlt : ∀ j, j < i → ages.getD j 0 < M) :
    pickOldest ages = some (i, M) := by
  obtain ⟨pr, hpr⟩ : ∃ pr, pickOldest ages = some pr := by
    cases ages with
    | nil => simp at hi
    | cons x rest => exact ⟨_, rfl⟩
  obtain ⟨i', a'⟩ := pr
  obtain ⟨hi', hMi', hub', hlt'⟩ := pickOldest_spec ages i' a' hpr
  have haM : a' = M := by
    have h1 : a' ≤ M := hMi' ▸ hub i' hi'
    have h2 : M ≤ a' := hMi ▸ hub' i hi
    omega
  have hii : i' = i := by
    by_contra hne
    rcases Nat.lt_or_ge i' i with hc | hc
    · have hx := hlt i' hc
      rw [hMi'] at hx
      omega
    · have hc2 : i < i' := lt_of_le_of_ne hc (fun he => hne he.symm)
      have hx := hlt' i hc2
      rw [hMi] at hx
      omega
  rw [hpr, hii, haM]

/-- The aged age at position `j` is the original age at `j` plus one. -/
lemma agedAges_getD (vs : List VoiceState) (j : ℕ) (h : j < vs.length) :
    ((vs.map bumpAge).map (fun v => v.age)).getD j 0 =
      (vs.getD j (freshVoice 0)).age + 1 := by
  rw [List.getD_eq_getElem _ 0 (by simpa using h),
    List.getD_eq_getElem _ (freshVoice 0) h]
  simp [bumpAge]

/-- The aged ages list has the same length as the pool. -/
lemma agedAges_length (vs : List VoiceState) :
    ((vs.map bumpAge).map (fun v => v.age)).length = vs.length := by
  simp

/-
Concrete states used by the counterexamples and witnesses for C3 and C4.
-/

/-- A synth with one idle voice and no voice parameters configured. -/
def s3a : SynthState where
  voiceParams := none
  voices := [freshVoice 1]
  nextNoteId := 1
  nextVoiceId := 2

/-- A synth with an empty pool and no voice parameters configured. -/
def s3b : SynthState where
  voiceParams := none
  voices := []
  nextNoteId := 1
  nextVoiceId := 1

/-- C3 counterexample: with no `VoiceParams` configured, `Synth.noteOn` over
a one-voice pool does throw `MissingVoiceParams`, but the pool is NOT left
unmutated: the allocation pass has already incremented the voice's age from
`EXPIRED` to `EXPIRED + 1`.  And over a zero-voice pool the call does not
fail at all: it returns the no-op callback. -/
theorem noteOn_missingParams_counterexample :
    (Synth.noteOn s3a 0 440 1).2 = NoteOnResult.thrown SynthError.MissingVoiceParams ∧
    (Synth.noteOn s3a 0 440 1).1.voices.map (fun v => v.age) = [EXPIRED + 1] ∧
    (Synth.noteOn s3a 0 440 1).1 ≠ s3a ∧
    (Synth.noteOn s3b 0 440 1).2 = NoteOnResult.noop := by decide

/-- C3 amended: with no `VoiceParams` configured, `Synth.noteOn` over a
nonempty pool throws `MissingVoiceParams` AFTER the allocation pass has
incremented every voice's age by one (note ids, timelines and stored
callbacks are untouched); over an empty pool it silently returns the no-op
callback with the state unchanged. -/
theorem noteOn_missingParams_behavior (s : SynthState) (t f vel : ℚ)
    (h : s.voiceParams = none) :
    (s.voices = [] → Synth.noteOn s t f vel = (s, NoteOnResult.noop)) ∧
    (s.voices ≠ [] →
      (Synth.noteOn s t f vel).2 = NoteOnResult.thrown SynthError.MissingVoiceParams ∧
      (Synth.noteOn s t f vel).1 = { s with voices := s.voices.map bumpAge }) := by
  obtain ⟨vp, vs, nn, nv⟩ := s
  simp only at h
  subst h
  constructor
  · intro he
    simp only at he
    subst he
    simp [Synth.noteOn, pickOldest]
  · intro hne
    simp only at hne
    match vs, hne with
    | x :: rest, _ =>
      simp [Synth.noteOn, pickOldest]

/-- Witness for the amended C3 at the two concrete states above. -/
theorem noteOn_missingParams_behavior_witness :
    Synth.noteOn s3b 0 440 1 = (s3b, NoteOnResult.noop) ∧
    ((Synth.noteOn s3a 0 440 1).2 = NoteOnResult.thrown SynthError.MissingVoiceParams ∧
      (Synth.noteOn s3a 0 440 1).1 = { s3a with voices := s3a.voices.map bumpAge }) :=
  ⟨(noteOn_missingParams_behavior s3b 0 440 1 (by decide)).1 (by decide),
   (noteOn_missingParams_behavior s3a 0 440 1 (by decide)).2 (by decide)⟩

/-- A still-playing voice (`noteId = 5 > 0`) whose age has reached the
`EXPIRED` sentinel because 10000 allocation rounds passed since its trigger. -/
def longPlayingVoice : VoiceState :=
  { freshVoice 1 with age := 10000, noteId := 5 }

/-- An idle voice that was released (`noteId = -1`, `age = EXPIRED`). -/
def idleVoice : VoiceState :=
  { freshVoice 2 with age := 10000, noteId := -1 }

/-- A still-playing voice triggered recently (age 3). -/
def recentPlayingVoice : VoiceState :=
  { freshVoice 1 with age := 3, noteId := 5 }

/-- Pool with the long-playing voice before the idle one. -/
def s4 : SynthState where
  voiceParams := some paramsA
  voices := [longPlayingVoice, idleVoice]
  nextNoteId := 6
  nextVoiceId := 3

/-- Pool with a recently triggered playing voice and an idle one. -/
def s4b : SynthState where
  voiceParams := some paramsA
  voices := [recentPlayingVoice, idleVoice]
  nextNoteId := 6
  nextVoiceId := 3

/-- C4 counterexample: the pool `s4` holds an idle/released voice
(`age = EXPIRED`, `noteId = -1`) at index 1 and a still-playing voice
(`noteId = 5 > 0`) at index 0 whose age has also reached `EXPIRED`; the
`noteOn` allocation pass selects the still-playing voice (index 0 is
retriggered with the fresh note id 6 and age 0) and leaves the idle voice
unselected (its note id stays `-1`), so an idle voice is NOT always
preferred. -/
theorem alloc_steals_playing_counterexample :
    longPlayingVoice.age = EXPIRED ∧ 0 < longPlayingVoice.noteId ∧
    idleVoice.age = EXPIRED ∧ idleVoice.noteId = -1 ∧
    (Synth.noteOn s4 0 440 1).1.voices.map (fun v => v.noteId) = [6, -1] ∧
    (Synth.noteOn s4 0 440 1).1.voices.map (fun v => v.age) = [0, EXPIRED + 1] := by
  decide

/-- C4 amended: on a `Synth.noteOn` allocation pass, IF every still-playing
voice (`noteId > 0`) has age strictly below `EXPIRED` (i.e. fewer than
`EXPIRED` allocation rounds have elapsed since its trigger) and some voice
carries age at least `EXPIRED`, THEN the selected voice is one of the
idle/released ones: its age is at least `EXPIRED` and its note id is not
positive. -/
theorem alloc_prefers_expired (s : SynthState) (k : ℕ) (M : ℤ)
    (hpick : pickOldest ((s.voices.map bumpAge).map (fun v => v.age)) = some (k, M))
    (hidle : ∃ v ∈ s.voices, EXPIRED ≤ v.age)
    (hplay : ∀ v ∈ s.voices, 0 < v.noteId → v.age < EXPIRED) :
    k < s.voices.length ∧
    EXPIRED ≤ (s.voices.getD k (freshVoice 0)).age ∧
    ¬ 0 < (s.voices.getD k (freshVoice 0)).noteId := by
  obtain ⟨hk, hMk, hub, _⟩ := pickOldest_spec _ k M hpick
  rw [agedAges_length] at hk
  rw [agedAges_getD s.voices k hk] at hMk
  obtain ⟨v, hv, hvage⟩ := hidle
  obtain ⟨i, hi, hvi⟩ := List.mem_iff_getElem.mp hv
  have hiage : ((s.voices.map bumpAge).map (fun w => w.age)).getD i 0 = v.age + 1 := by
    rw [agedAges_getD s.voices i hi, List.getD_eq_getElem _ (freshVoice 0) hi, hvi]
  have hMbig : EXPIRED + 1 ≤ M := by
    have := hub i (by rw [agedAges_length]; exact hi)
    rw [hiage] at this
    omega
  have hkage : EXPIRED ≤ (s.voices.getD k (freshVoice 0)).age := by omega
  refine ⟨hk, hkage, ?_⟩
  intro hpos
  have hmem : s.voices.getD k (freshVoice 0) ∈ s.voices := by
    rw [List.getD_eq_getElem _ (freshVoice 0) hk]
    exact List.getElem_mem hk
  have := hplay _ hmem hpos
  omega

/-- Witness for the amended C4 on the pool `s4b` (playing voice of age 3,
idle voice of age `EXPIRED`): the selection lands on the idle voice. -/
theorem alloc_prefers_expired_witness :
    (1 < s4b.voices.length ∧
      EXPIRED ≤ (s4b.voices.getD 1 (freshVoice 0)).age ∧
      ¬ 0 < (s4b.voices.getD 1 (freshVoice 0)).noteId) :=
  alloc_prefers_expired s4b 1 10001 (by decide) (by decide) (by decide)

/-- A valid plain-oscillator configuration (triangle, no periodic wave). -/
def goodVoiceParams : VoiceParams where
  toVoiceBaseParams := paramsA
  type := OscType.triangle
  periodicWave := none

/-- An invalid unison configuration: type `custom` with no periodic wave. -/
def badUnisonParams : UnisonVoiceParams where
  toVoiceParams :=
    { toVoiceBaseParams := paramsA, type := OscType.custom, periodicWave := none }
  stackSize := 3
  spread := 3/2

deriving instance DecidableEq for Except

/-- C7 counterexample: `UnisonVoice.noteOn` with type `custom` and no
periodic-wave payload does fail with the invalid-waveform error, but NOT
before every scheduling side effect: the failing call has already written
the spread automation point (an automation point on the spread timeline)
and set the oscillator stack size. -/
theorem unison_waveform_error_writes_spread :
    (UnisonVoice.noteOn (freshVoice 1) 0 440 1 7 badUnisonParams).2 =
      Except.error SynthError.InvalidWaveformConfiguration ∧
    (UnisonVoice.noteOn (freshVoice 1) 0 440 1 7 badUnisonParams).1.spreadEvents =
      [GainEvent.setValueAtTime (3/2) (0 + paramsA.audioDelay)] ∧
    (UnisonVoice.noteOn (freshVoice 1) 0 440 1 7 badUnisonParams).1 ≠ freshVoice 1 := by
  refine ⟨rfl, rfl, ?_⟩
  intro h
  have h2 := congrArg VoiceState.spreadEvents h
  simp [UnisonVoice.noteOn, badUnisonParams, freshVoice] at h2

/-- C7 amended: both voice variants fail with
`InvalidWaveformConfiguration` exactly when the configuration pairs a
periodic wave with a non-`custom` type or a `custom` type with no periodic
wave, and in all other combinations return the `noteOff` closure.  For the
plain `Voice` the failing call leaves the voice entirely unchanged; for the
`UnisonVoice` the failing call has already set the stack size and written
the spread automation point, but has written no envelope-gain or frequency
automation (those timelines are exactly as before). -/
theorem waveform_validation (v : VoiceState) (t f vel : ℚ) (id : ℤ)
    (p : VoiceParams) (pu : UnisonVoiceParams) :
    ((Voice.noteOn v t f vel id p).2 =
        Except.error SynthError.InvalidWaveformConfiguration ↔
      waveformConfigInvalid p = true) ∧
    (waveformConfigInvalid p = true →
      Voice.noteOn v t f vel id p =
        (v, Except.error SynthError.InvalidWaveformConfiguration)) ∧
    (waveformConfigInvalid p = false →
      (Voice.noteOn v t f vel id p).2 = Except.ok
        { noteId := id, t0 := t + p.audioDelay, attackTime := p.attackTime,
          velocity := vel, releaseTime := p.releaseTime }) ∧
    ((UnisonVoice.noteOn v t f vel id pu).2 =
        Except.error SynthError.InvalidWaveformConfiguration ↔
      waveformConfigInvalid pu.toVoiceParams = true) ∧
    (waveformConfigInvalid pu.toVoiceParams = true →
      UnisonVoice.noteOn v t f vel id pu =
        ({ v with
             numberOfVoices := pu.stackSize,
             spreadEvents := v.spreadEvents ++
               [GainEvent.setValueAtTime pu.spread (t + pu.audioDelay)] },
         Except.error SynthError.InvalidWaveformConfiguration)) ∧
    (waveformConfigInvalid pu.toVoiceParams = false →
      (UnisonVoice.noteOn v t f vel id pu).2 = Except.ok
        { noteId := id, t0 := t + pu.audioDelay, attackTime := pu.attackTime,
          velocity := vel, releaseTime := pu.releaseTime }) := by
  refine ⟨?_, ?_, ?_, ?_, ?_, ?_⟩
  · cases hw : p.periodicWave <;> by_cases ht : p.type = OscType.custom <;>
      simp [Voice.noteOn, waveformConfigInvalid, hw, ht]
  · intro hinv
    cases hw : p.periodicWave <;> by_cases ht : p.type = OscType.custom <;>
      simp [waveformConfigInvalid, hw, ht] at hinv ⊢ <;>
      simp [Voice.noteOn, hw, ht]
  · intro hval
    cases hw : p.periodicWave <;> by_cases ht : p.type = OscType.custom <;>
      simp [waveformConfigInvalid, hw, ht] at hval ⊢ <;>
      simp [Voice.noteOn, VoiceBase.noteOn, hw, ht]
  · cases hw : pu.toVoiceParams.periodicWave <;>
      by_cases ht : pu.toVoiceParams.type = OscType.custom <;>
      simp [UnisonVoice.noteOn, waveformConfigInvalid, hw, ht]
  · intro hinv
    cases hw : pu.toVoiceParams.periodicWave <;>
      by_cases ht : pu.toVoiceParams.type = OscType.custom <;>
      simp [waveformConfigInvalid, hw, ht] at hinv ⊢ <;>
      simp [UnisonVoice.noteOn, hw, ht]
  · intro hval
    cases hw : pu.toVoiceParams.periodicWave <;>
      by_cases ht : pu.toVoiceParams.type = OscType.custom <;>
      simp [waveformConfigInvalid, hw, ht] at hval ⊢ <;>
      simp [UnisonVoice.noteOn, VoiceBase.noteOn, hw, ht]

/-- Witness for the amended C7: a valid triangle configuration triggers
normally, and the invalid unison configuration fails having changed only
the stack size and the spread timeline. -/
theorem waveform_validation_witness :
    (Voice.noteOn (freshVoice 1) 0 440 1 7 goodVoiceParams).2 =
      Except.ok
        { noteId := 7, t0 := 0 + goodVoiceParams.audioDelay,
          attackTime := goodVoiceParams.attackTime, velocity := 1,
          releaseTime := goodVoiceParams.releaseTime } ∧
    UnisonVoice.noteOn (freshVoice 1) 0 440 1 7 badUnisonParams =
      ({ freshVoice 1 with
           numberOfVoices := badUnisonParams.stackSize,
           spreadEvents := (freshVoice 1).spreadEvents ++
             [GainEvent.setValueAtTime badUnisonParams.spread
               (0 + badUnisonParams.audioDelay)] },
       Except.error SynthError.InvalidWaveformConfiguration) :=
  ⟨(waveform_validation (freshVoice 1) 0 440 1 7 goodVoiceParams
      badUnisonParams).2.2.1 (by decide),
   (waveform_validation (freshVoice 1) 0 440 1 7 goodVoiceParams
      badUnisonParams).2.2.2.2.1 (by decide)⟩

def s9 : SynthState where
  voiceParams := none
  voices := []
  nextNoteId := 1
  nextVoiceId := 1

theorem setPolyphony_nonInteger_counterexample :
    (Synth.setPolyphony s9 (JSNum.fin (5/2))).2 ≠
      Except.error SynthError.InvalidPolyphony ∧
    (Synth.setPolyphony s9 (JSNum.fin (5/2))).1.voices.length = 3 := by
  have hvalid : invalidPolyphony (JSNum.fin (5/2)) = false := by
    simp [invalidPolyphony, JSNum.ltZero]
    norm_num
  have hceil : Nat.ceil ((5 : ℚ)/2) = 3 := by
    rw [Nat.ceil_eq_iff (by norm_num)]
    norm_num
  have hcomp : Synth.setPolyphony s9 (JSNum.fin (5/2)) =
      ({ s9 with voices := [freshVoice 1, freshVoice 2, freshVoice 3], nextVoiceId := 4 },
       Except.ok []) := by
    norm_num [Synth.setPolyphony, hvalid, hceil, popLoopF, pushLoopF, s9]
  rw [hcomp]
  constructor
  · intro h
    exact absurd h (by simp)
  · rfl

lemma popLoopF_spec (n : ℕ) : ∀ (fuel : ℕ) (vs : List VoiceState),
    vs.length ≤ fuel →
    popLoopF fuel vs (n : ℚ) = (vs.take n, (vs.drop n).reverse) := by
  intro fuel
  induction fuel with
  | zero =>
    intro vs hle
    have hnil : vs = [] := List.length_eq_zero.mp (Nat.le_zero.mp hle)
    subst hnil
    simp [popLoopF]
  | succ f ih =>
    intro vs hle
    by_cases hq : (n : ℚ) < (vs.length : ℚ)
    · have hnlen : n < vs.length := by exact_mod_cast hq
      have hne : vs ≠ [] := by
        intro he
        subst he
        simp at hnlen
      have hd : vs.getLast? = some (vs.getLast hne) := List.getLast?_eq_getLast vs hne
      have hlen' : vs.dropLast.length ≤ f := by
        rw [List.length_dropLast]
        omega
      simp only [popLoopF]
      rw [if_pos hq, hd, ih vs.dropLast hlen']
      have hvs : vs.dropLast ++ [vs.getLast hne] = vs := List.dropLast_append_getLast hne
      have h1 : vs.dropLast.take n = vs.take n := by
        rw [List.dropLast_eq_take vs, List.take_take]
        congr 1
        omega
      have h2 : vs.getLast hne :: (vs.dropLast.drop n).reverse = (vs.drop n).reverse := by
        conv_rhs => rw [← hvs]
        rw [List.drop_append_of_le_length (by rw [List.length_dropLast]; omega)]
        rw [List.reverse_append]
        simp
      dsimp only
      rw [h1, h2]
    · have hlen : vs.length ≤ n := by
        by_contra hlt
        push_neg at hlt
        exact hq (by exact_mod_cast hlt)
      simp only [popLoopF]
      rw [if_neg hq]
      rw [List.take_of_length_le hlen, List.drop_eq_nil_of_le hlen]
      simp

lemma pushLoopF_spec (n : ℕ) : ∀ (fuel : ℕ) (vs : List VoiceState) (vid : ℕ),
    n ≤ vs.length + fuel →
    pushLoopF fuel vs (n : ℚ) vid =
      (vs ++ (List.range (n - vs.length)).map (fun j => freshVoice (vid + j)),
       vid + (n - vs.length)) := by
  intro fuel
  induction fuel with
  | zero =>
    intro vs vid hle
    have h0 : n - vs.length = 0 := by omega
    simp [pushLoopF, h0]
  | succ f ih =>
    intro vs vid hle
    by_cases hq : (vs.length : ℚ) < (n : ℚ)
    · have hlt : vs.length < n := by exact_mod_cast hq
      simp only [pushLoopF]
      rw [if_pos hq, ih (vs ++ [freshVoice vid]) (vid + 1) (by simp; omega)]
      have hk : n - vs.length = (n - (vs.length + 1)) + 1 := by omega
      simp only [List.length_append, List.length_cons, List.length_nil, Nat.zero_add]
      simp only [Prod.mk.injEq]
      constructor
      · rw [List.append_assoc]
        congr 1
        rw [hk, List.range_succ_eq_map, List.map_cons, List.map_map]
        simp only [Nat.add_zero, List.singleton_append]
        congr 1
        apply List.map_congr_left
        intro j hj
        simp only [Function.comp]
        congr 1
        omega
      · omega
    · have hge : n ≤ vs.length := by
        by_contra hlt
        push_neg at hlt
        exact hq (by exact_mod_cast hlt)
      have h0 : n - vs.length = 0 := by omega
      simp only [pushLoopF]
      rw [if_neg hq]
      simp [h0]

def s8 : SynthState where
  voiceParams := none
  voices := [freshVoice 1, freshVoice 2]
  nextNoteId := 1
  nextVoiceId := 3

theorem setPolyphony_shrink_order_counterexample :
    (Synth.setPolyphony s8 (JSNum.fin 0)).2 = Except.ok [freshVoice 2, freshVoice 1] ∧
    [freshVoice 2, freshVoice 1] ≠ [freshVoice 1, freshVoice 2] ∧
    (Synth.setPolyphony s8 (JSNum.fin 0)).1.voices = [] := by
  refine ⟨?_, by decide, ?_⟩ <;>
    · norm_num [Synth.setPolyphony, invalidPolyphony, JSNum.ltZero, popLoopF, pushLoopF, s8]
      simp

theorem setPolyphony_validation (s : SynthState) (m : JSNum) (n : ℕ) :
    (invalidPolyphony m = true →
      Synth.setPolyphony s m = (s, Except.error SynthError.InvalidPolyphony)) ∧
    invalidPolyphony (JSNum.fin (-1)) = true ∧
    invalidPolyphony JSNum.posInf = true ∧
    invalidPolyphony JSNum.nan = true ∧
    invalidPolyphony JSNum.negInf = true ∧
    ((Synth.setPolyphony s (JSNum.fin (n : ℚ))).1.voices.length = n ∧
      (Synth.setPolyphony s (JSNum.fin (n : ℚ))).2 =
        Except.ok ((s.voices.drop n).reverse)) := by
  have hval : invalidPolyphony (JSNum.fin ((n : ℚ))) = false := by
    simp [invalidPolyphony, JSNum.ltZero, not_lt]
  have hcomp : Synth.setPolyphony s (JSNum.fin (n : ℚ)) =
      ({ s with
           voices := s.voices.take n ++
             (List.range (n - (s.voices.take n).length)).map
               (fun j => freshVoice (s.nextVoiceId + j)),
           nextVoiceId := s.nextVoiceId + (n - (s.voices.take n).length) },
       Except.ok ((s.voices.drop n).reverse)) := by
    simp only [Synth.setPolyphony, hval, Bool.false_eq_true, if_false]
    rw [popLoopF_spec n s.voices.length s.voices le_rfl]
    rw [Nat.ceil_natCast]
    rw [pushLoopF_spec n n (s.voices.take n) s.nextVoiceId
      (by simp [List.length_take]; try omega)]
  refine ⟨?_, by decide, by decide, by decide, by decide, ?_, ?_⟩
  · intro h
    simp [Synth.setPolyphony, h]
  · rw [hcomp]
    simp [List.length_take]
    try omega
  · rw [hcomp]

theorem setPolyphony_resize (s : SynthState) (n : ℕ) :
    (n ≤ s.voices.length →
      Synth.setPolyphony s (JSNum.fin (n : ℚ)) =
        ({ s with voices := s.voices.take n },
         Except.ok ((s.voices.drop n).reverse))) ∧
    (s.voices.length ≤ n →
      Synth.setPolyphony s (JSNum.fin (n : ℚ)) =
        ({ s with
             voices := s.voices ++
               (List.range (n - s.voices.length)).map
                 (fun j => freshVoice (s.nextVoiceId + j)),
             nextVoiceId := s.nextVoiceId + (n - s.voices.length) },
         Except.ok []) ∧
      ∀ j, j < n - s.voices.length →
        (freshVoice (s.nextVoiceId + j)).age = EXPIRED ∧
        (freshVoice (s.nextVoiceId + j)).noteId = 0) := by
  have hval : invalidPolyphony (JSNum.fin ((n : ℚ))) = false := by
    simp [invalidPolyphony, JSNum.ltZero, not_lt]
  have hcomp : Synth.setPolyphony s (JSNum.fin (n : ℚ)) =
      ({ s with
           voices := s.voices.take n ++
             (List.range (n - (s.voices.take n).length)).map
               (fun j => freshVoice (s.nextVoiceId + j)),
           nextVoiceId := s.nextVoiceId + (n - (s.voices.take n).length) },
       Except.ok ((s.voices.drop n).reverse)) := by
    simp only [Synth.setPolyphony, hval, Bool.false_eq_true, if_false]
    rw [popLoopF_spec n s.voices.length s.voices le_rfl]
    rw [Nat.ceil_natCast]
    rw [pushLoopF_spec n n (s.voices.take n) s.nextVoiceId
      (by simp [List.length_take]; try omega)]
  constructor
  · intro hle
    rw [hcomp]
    have hlen : (s.voices.take n).length = n := by
      simp [List.length_take]
      try omega
    rw [hlen]
    simp
  · intro hge
    refine ⟨?_, ?_⟩
    · rw [hcomp]
      have htake : s.voices.take n = s.voices := List.take_of_length_le hge
      have hdrop : s.voices.drop n = [] := List.drop_eq_nil_of_le hge
      rw [htake, hdrop]
      simp
    · intro j hj
      exact ⟨rfl, rfl⟩

theorem setPolyphony_validation_witness :
    Synth.setPolyphony s9 JSNum.posInf = (s9, Except.error SynthError.InvalidPolyphony) ∧
    (Synth.setPolyphony s9 (JSNum.fin ((3 : ℕ) : ℚ))).1.voices.length = 3 ∧
    (Synth.setPolyphony s9 (JSNum.fin ((3 : ℕ) : ℚ))).2 =
      Except.ok ((s9.voices.drop 3).reverse) :=
  ⟨(setPolyphony_validation s9 JSNum.posInf 3).1 (by decide),
   (setPolyphony_validation s9 JSNum.posInf 3).2.2.2.2.2.1,
   (setPolyphony_validation s9 JSNum.posInf 3).2.2.2.2.2.2⟩

theorem setPolyphony_resize_witness :
    Synth.setPolyphony s8 (JSNum.fin ((1 : ℕ) : ℚ)) =
      ({ s8 with voices := s8.voices.take 1 },
       Except.ok ((s8.voices.drop 1).reverse)) ∧
    Synth.setPolyphony s9 (JSNum.fin ((2 : ℕ) : ℚ)) =
      ({ s9 with
           voices := s9.voices ++
             (List.range (2 - s9.voices.length)).map
               (fun j => freshVoice (s9.nextVoiceId + j)),
           nextVoiceId := s9.nextVoiceId + (2 - s9.voices.length) },
       Except.ok []) :=
  ⟨(setPolyphony_resize s8 1).1 (by decide),
   ((setPolyphony_resize s9 2).2 (by decide)).1⟩

/-- Invoking a `noteOff` closure whose captured id does not match is the
identity on the voice state (shared helper). -/
lemma invokeNoteOff_stale (c : NoteOffClosure) (t : ℚ) (v : VoiceState)
    (h : v.noteId ≠ c.noteId) : invokeNoteOff c t v = v := by
  simp [invokeNoteOff, h]

/-- Invoking a `noteOff` closure never changes which callback is stored as
the voice's most recent one. -/
lemma invokeNoteOff_lastNoteOff (c : NoteOffClosure) (t : ℚ) (v : VoiceState) :
    (invokeNoteOff c t v).lastNoteOff = v.lastNoteOff := by
  by_cases h : v.noteId ≠ c.noteId <;> simp [invokeNoteOff, h]

/-- An owning invocation marks the voice released (`noteId = -1`). -/
lemma invokeNoteOff_noteId_owner (c : NoteOffClosure) (t : ℚ) (v : VoiceState)
    (h : v.noteId = c.noteId) : (invokeNoteOff c t v).noteId = -1 := by
  simp [invokeNoteOff, h]

/-- C6: `Synth.allNotesOff` invokes each voice's most recent `noteOff` and
is idempotent: on any pool state in which no stored closure captured the
released sentinel `-1` as its note id (all real note ids are positive, so
this holds for every reachable state), a second `allNotesOff` — at any
later time — schedules no additional automation and leaves the state of
the first call unchanged, each voice ignoring it via the ownership check. -/
theorem allNotesOff_idempotent (s : SynthState) (t1 t2 : ℚ)
    (h : ∀ v ∈ s.voices, v.lastNoteOff.all (fun c => c.noteId != -1) = true) :
    Synth.allNotesOff (Synth.allNotesOff s t1) t2 = Synth.allNotesOff s t1 := by
  unfold Synth.allNotesOff
  simp only [List.map_map]
  congr 1
  apply List.map_congr_left
  intro v hv
  have hall := h v hv
  simp only [Function.comp]
  cases hc : v.lastNoteOff with
  | none => simp [voiceAllOff, hc]
  | some c =>
    have hcne : c.noteId ≠ -1 := by
      rw [hc] at hall
      simpa using hall
    have hg1 : voiceAllOff t1 v = invokeNoteOff c t1 v := by
      simp [voiceAllOff, hc]
    have hlast : (invokeNoteOff c t1 v).lastNoteOff = some c := by
      rw [invokeNoteOff_lastNoteOff, hc]
    have hg2 : voiceAllOff t2 (invokeNoteOff c t1 v) =
        invokeNoteOff c t2 (invokeNoteOff c t1 v) := by
      simp [voiceAllOff, hlast]
    rw [hg1, hg2]
    by_cases hown : v.noteId = c.noteId
    · have hne2 : (invokeNoteOff c t1 v).noteId ≠ c.noteId := by
        rw [invokeNoteOff_noteId_owner c t1 v hown]
        exact fun he => hcne he.symm
      exact invokeNoteOff_stale c t2 _ hne2
    · rw [invokeNoteOff_stale c t1 v hown]
      exact invokeNoteOff_stale c t2 v hown

/-- A synth state with one voice that has been triggered once (its stored
closure captured note id 1). -/
def s6 : SynthState where
  voiceParams := some paramsA
  voices := [(VoiceBase.noteOn (freshVoice 1) 0 440 1 1 paramsA).1]
  nextNoteId := 2
  nextVoiceId := 2

/-- Witness for C6 on the one-triggered-voice state `s6`. -/
theorem allNotesOff_idempotent_witness :
    Synth.allNotesOff (Synth.allNotesOff s6 (1/2)) (3/4) = Synth.allNotesOff s6 (1/2) :=
  allNotesOff_idempotent s6 (1/2) (3/4) (by decide)

/-- Aging the voices and then projecting ages equals projecting ages and
adding one. -/
lemma agedAges_eq (vs : List VoiceState) :
    (vs.map bumpAge).map (fun v => v.age) =
      (vs.map (fun v => v.age)).map (fun a => a + 1) := by
  rw [List.map_map, List.map_map]
  exact List.map_congr_left (fun v _ => rfl)

/-- The age profile of a fresh pool of `n` voices after `k` trigger rounds:
voice `i` has age `k - 1 - i` if it has been triggered (`i < k`), else its
initial `EXPIRED` aged by the `k` allocation passes. -/
def ageTemplate (n k : ℕ) : List ℤ :=
  (List.range n).map (fun i => if i < k then (k : ℤ) - 1 - i else EXPIRED + k)

lemma ageTemplate_length (n k : ℕ) : (ageTemplate n k).length = n := by
  simp [ageTemplate]

lemma ageTemplate_getD (n k i : ℕ) (h : i < n) :
    (ageTemplate n k).getD i 0 =
      if i < k then (k : ℤ) - 1 - i else EXPIRED + k := by
  rw [ageTemplate, List.getD_eq_getElem _ 0 (by simpa using h)]
  simp

lemma map_add_one_getD (l : List ℤ) (i : ℕ) (h : i < l.length) :
    (l.map (fun a => a + 1)).getD i 0 = l.getD i 0 + 1 := by
  rw [List.getD_eq_getElem _ 0 (by simpa using h), List.getD_eq_getElem _ 0 h,
    List.getElem_map]

/-- During round `k + 1` (with `k < n` voices already triggered) the
selection pass picks the first untriggered voice, index `k`. -/
lemma pick_template_lt (n k : ℕ) (hk : k < n) :
    pickOldest ((ageTemplate n k).map (fun a => a + 1)) =
      some (k, EXPIRED + k + 1) := by
  have hlenmap : ∀ j : ℕ, j < ((ageTemplate n k).map (fun a => a + 1)).length ↔ j < n := by
    intro j
    simp [ageTemplate_length]
  apply pickOldest_eq_of
  · exact (hlenmap k).mpr hk
  · rw [map_add_one_getD _ _ (by rw [ageTemplate_length]; exact hk),
      ageTemplate_getD n k k hk]
    simp
  · intro j hj
    have hjn : j < n := (hlenmap j).mp hj
    rw [map_add_one_getD _ _ (by rw [ageTemplate_length]; exact hjn),
      ageTemplate_getD n k j hjn]
    by_cases hjk : j < k
    · simp only [if_pos hjk, EXPIRED]
      omega
    · simp only [if_neg hjk]
      omega
  · intro j hj
    have hjn : j < n := lt_trans hj hk
    rw [map_add_one_getD _ _ (by rw [ageTemplate_length]; exact hjn),
      ageTemplate_getD n k j hjn]
    simp only [if_pos hj, EXPIRED]
    omega

/-- After all `n` voices have been triggered once, the selection pass picks
index 0, the voice triggered first. -/
lemma pick_template_full (n : ℕ) (hn : 1 ≤ n) :
    pickOldest ((ageTemplate n n).map (fun a => a + 1)) = some (0, (n : ℤ)) := by
  have h0 : (0 : ℕ) < n := hn
  apply pickOldest_eq_of
  · rw [List.length_map, ageTemplate_length]
    exact h0
  · rw [map_add_one_getD _ _ (by rw [ageTemplate_length]; exact h0),
      ageTemplate_getD n n 0 h0]
    simp only [if_pos h0]
    omega
  · intro j hj
    rw [List.length_map, ageTemplate_length] at hj
    rw [map_add_one_getD _ _ (by rw [ageTemplate_length]; exact hj),
      ageTemplate_getD n n j hj]
    simp only [if_pos hj]
    omega
  · intro j hj
    omega

/-- One aging-and-reset step on the template: aging every entry by one and
resetting entry `k` to zero advances the template by one round. -/
lemma template_step (n k : ℕ) (_hk : k < n) :
    ((ageTemplate n k).map (fun a => a + 1)).set k 0 = ageTemplate n (k + 1) := by
  apply List.ext_getElem
  · simp [ageTemplate_length]
  · intro i h1 h2
    have hin : i < n := by
      simpa [ageTemplate_length] using h2
    rw [List.getElem_set]
    by_cases hik : k = i
    · subst hik
      rw [if_pos rfl]
      simp only [ageTemplate, List.getElem_map, List.getElem_range]
      rw [if_pos (by omega : k < k + 1)]
      omega
    · rw [if_neg hik]
      simp only [List.getElem_map, ageTemplate, List.getElem_range]
      by_cases hik2 : i < k
      · rw [if_pos hik2, if_pos (by omega : i < k + 1)]
        omega
      · rw [if_neg hik2, if_neg (by omega : ¬ i < k + 1)]
        push_cast
        ring

/-- Effect of a successful `Synth.noteOn` on the age profile: every age is
incremented and the selected index is reset to 0; `voiceParams` is kept. -/
lemma noteOn_ages (s : SynthState) (p : VoiceBaseParams) (hp : s.voiceParams = some p)
    (i : ℕ) (M : ℤ)
    (hpick : pickOldest ((s.voices.map (fun v => v.age)).map (fun a => a + 1)) =
      some (i, M)) (t f vel : ℚ) :
    (Synth.noteOn s t f vel).1.voices.map (fun v => v.age) =
      ((s.voices.map (fun v => v.age)).map (fun a => a + 1)).set i 0 ∧
    (Synth.noteOn s t f vel).1.voiceParams = some p := by
  simp only [Synth.noteOn]
  rw [agedAges_eq, hpick, hp]
  simp only [List.map_set]
  rw [agedAges_eq]
  constructor
  · congr 1
  · trivial

/-- Invariant of `k` consecutive `noteOn` calls on a fresh pool of `n`
voices (`k ≤ n`): the parameters persist and the age profile follows
`ageTemplate n k`; in particular call `k + 1` (for `k < n`) triggers the
voice at index `k`. -/
lemma iter_invariant (n : ℕ) (p : VoiceBaseParams) (inputs : ℕ → ℚ × ℚ × ℚ) :
    ∀ k, k ≤ n →
    (iterNoteOn (freshSynth n p) inputs k).voiceParams = some p ∧
    (iterNoteOn (freshSynth n p) inputs k).voices.map (fun v => v.age) =
      ageTemplate n k := by
  intro k
  induction k with
  | zero =>
    intro _
    refine ⟨rfl, ?_⟩
    simp only [iterNoteOn, freshSynth, ageTemplate, List.map_map]
    apply List.map_congr_left
    intro i hi
    simp [freshVoice]
  | succ k ih =>
    intro hk
    have hk' : k ≤ n := by omega
    have hkn : k < n := by omega
    obtain ⟨hp, hages⟩ := ih hk'
    have hpick : pickOldest
        (((iterNoteOn (freshSynth n p) inputs k).voices.map (fun v => v.age)).map
          (fun a => a + 1)) = some (k, EXPIRED + k + 1) := by
      rw [hages]
      exact pick_template_lt n k hkn
    obtain ⟨hages', hp'⟩ := noteOn_ages _ p hp k (EXPIRED + k + 1) hpick
      (inputs k).1 (inputs k).2.1 (inputs k).2.2
    constructor
    · simpa only [iterNoteOn] using hp'
    · have hstep : (iterNoteOn (freshSynth n p) inputs (k + 1)).voices.map
          (fun v => v.age) =
          ((ageTemplate n k).map (fun a => a + 1)).set k 0 := by
        simp only [iterNoteOn]
        rw [hages', hages]
      rw [hstep]
      exact template_step n k hkn

/-- C2: starting from a freshly created pool of `n ≥ 1` voices (all ages at
the `EXPIRED` sentinel) and performing consecutive `Synth.noteOn` calls
with no `noteOff` in between: the `k`-th call (0-based, `k < n`) triggers
voice `k`, so the first call triggers voice 0; the `(n+1)`-th call selects
(steals) exactly voice 0, the voice triggered by the first call, never a
voice triggered later; and the selection pass operates on the by-one
incremented ages and picks the voice with the strictly greatest age, the
lower pool index winning ties because the comparison is strict. -/
theorem stealing_first_triggered (n : ℕ) (hn : 1 ≤ n) (p : VoiceBaseParams)
    (inputs : ℕ → ℚ × ℚ × ℚ) :
    (∀ k, k < n →
      selectedIndex (iterNoteOn (freshSynth n p) inputs k) = some k) ∧
    selectedIndex (iterNoteOn (freshSynth n p) inputs n) = some 0 ∧
    (∀ ages : List ℤ, ∀ i : ℕ, ∀ a : ℤ, pickOldest ages = some (i, a) →
      i < ages.length ∧ ages.getD i 0 = a ∧
      (∀ j, j < ages.length → ages.getD j 0 ≤ a) ∧
      (∀ j, j < i → ages.getD j 0 < a)) := by
  refine ⟨?_, ?_, pickOldest_spec⟩
  · intro k hk
    obtain ⟨_, hages⟩ := iter_invariant n p inputs k (le_of_lt hk)
    unfold selectedIndex
    rw [agedAges_eq, hages, pick_template_lt n k hk]
    rfl
  · obtain ⟨_, hages⟩ := iter_invariant n p inputs n le_rfl
    unfold selectedIndex
    rw [agedAges_eq, hages, pick_template_full n hn]
    rfl

/-- Witness for C2 with pool size 2: calls 0 and 1 trigger voices 0 and 1,
and the third call steals voice 0. -/
theorem stealing_first_triggered_witness :
    selectedIndex (iterNoteOn (freshSynth 2 paramsA) (fun _ => (0, 440, 1)) 0) =
      some 0 ∧
    selectedIndex (iterNoteOn (freshSynth 2 paramsA) (fun _ => (0, 440, 1)) 1) =
      some 1 ∧
    selectedIndex (iterNoteOn (freshSynth 2 paramsA) (fun _ => (0, 440, 1)) 2) =
      some 0 :=
  ⟨(stealing_first_triggered 2 (by decide) paramsA (fun _ => (0, 440, 1))).1 0
     (by decide),
   (stealing_first_triggered 2 (by decide) paramsA (fun _ => (0, 440, 1))).1 1
     (by decide),
   (stealing_first_triggered 2 (by decide) paramsA (fun _ => (0, 440, 1))).2.1⟩
